import Mathlib

/-!
Verification of the watch-stabilize-copy engine of the stream-watcher
repository.

The development shallowly embeds the core of `acb_sync/watcher.py`
(the stability tracker and the event filter) and `acb_sync/copier.py`
(collision resolution, rename-token expansion, the retry loop with
SHA-256 verification, and the statistics aggregate).  Filesystem
behaviour, wall-clock readings and hash values are passed in as
explicit environment data; the control flow and the data transformations
are translated from the Python source.
-/

namespace StreamWatcher

/-! ## Stability tracker (`watcher.py`, class `_StabilityTracker`) -/

/-- Outcome of one `_poll` iteration for a single tracked candidate.
Mirrors the branch structure of `_StabilityTracker._poll`:
a failed `stat` drops the candidate, a size change refreshes the
snapshot to `(now, current_size)`, an unchanged size that has lasted
`stable_seconds` promotes, and otherwise the candidate is kept. -/
inductive PollAction where
  | dropped
  | refreshed (snap : Nat × Nat)
  | promoted
  | kept
deriving DecidableEq

/-- One candidate step of `_StabilityTracker._poll`.  `snap` is the stored
`(last_modified_time, last_size)` pair and `statSize` the result of
`path.stat().st_size` (`none` when the stat raises `OSError`).
Times are modelled as naturals. -/
def pollStep (stableSeconds now : Nat) (snap : Nat × Nat) (statSize : Option Nat) :
    PollAction :=
  match statSize with
  | none => .dropped
  | some sz =>
    if sz ≠ snap.2 then .refreshed (now, sz)
    else if stableSeconds ≤ now - snap.1 then .promoted
    else .kept

/-- One observation made by a poll tick: the tick's `time.time()` reading
and the observed size (`none` = the file vanished). -/
structure TickObs where
  time : Nat
  statSize : Option Nat
deriving DecidableEq

/-- Run of the poll loop on a single tracked candidate across a list of
ticks.  Returns `some (promotionTime, snapshotTime)` if the candidate is
promoted, where `snapshotTime` is the stored timestamp of the last
observed size change at the moment of promotion. -/
def pollRun (stableSeconds : Nat) (snap : Nat × Nat) :
    List TickObs → Option (Nat × Nat)
  | [] => none
  | t :: rest =>
    match pollStep stableSeconds t.time snap t.statSize with
    | .dropped => none
    | .refreshed s => pollRun stableSeconds s rest
    | .promoted => some (t.time, snap.1)
    | .kept => pollRun stableSeconds snap rest

/-- Embedding of `_StabilityTracker.track`.  The pending table is a map
from path to `(time, size)`.  `isFile` models `path.is_file()` and
`statSize` the `path.stat()` call (`none` = `OSError`).  A successful
track unconditionally stores `(now, size)` for the path. -/
def track (pending : String → Option (Nat × Nat)) (path : String)
    (isFile : Bool) (statSize : Option Nat) (now : Nat) :
    String → Option (Nat × Nat) :=
  if !isFile then pending
  else
    match statSize with
    | none => pending
    | some sz => fun p => if p = path then some (now, sz) else pending p

/-- Interleaved events seen by the tracker for one file: `trackEv` is a
filesystem event routed through `track` (with a successful stat of the
given size), `tick` is one `_poll` iteration. -/
inductive WatchEv where
  | trackEv (time size : Nat)
  | tick (time : Nat) (statSize : Option Nat)
deriving DecidableEq

/-- Single-candidate run of the tracker over an interleaving of `track`
calls and poll ticks.  The state is the candidate's entry in the pending
table (`none` = not tracked).  Returns the first promotion time, if any. -/
def eventsRun (stableSeconds : Nat) (st : Option (Nat × Nat)) :
    List WatchEv → Option Nat
  | [] => none
  | .trackEv t sz :: rest => eventsRun stableSeconds (some (t, sz)) rest
  | .tick t obs :: rest =>
    match st with
    | none => eventsRun stableSeconds none rest
    | some snap =>
      match pollStep stableSeconds t snap obs with
      | .dropped => eventsRun stableSeconds none rest
      | .refreshed s => eventsRun stableSeconds (some s) rest
      | .promoted => some t
      | .kept => eventsRun stableSeconds st rest

/-- Event stream in which every poll tick is preceded by a fresh
filesystem event for the same, never-changing size: the pair `(u, t)`
contributes a `track` call at time `u` followed by a poll tick at
time `t`. -/
def hammerEvents (sz : Nat) : List (Nat × Nat) → List WatchEv
  | [] => []
  | (u, t) :: rest => .trackEv u sz :: .tick t (some sz) :: hammerEvents sz rest

/-- The same single-candidate tracker run as `eventsRun`, additionally
reporting the stored snapshot timestamp at the moment of promotion
(the time of the last snapshot refresh: the last `track` call or
size-change observation for the file). -/
def eventsRunSnap (stableSeconds : Nat) (st : Option (Nat × Nat)) :
    List WatchEv → Option (Nat × Nat)
  | [] => none
  | .trackEv t sz :: rest => eventsRunSnap stableSeconds (some (t, sz)) rest
  | .tick t obs :: rest =>
    match st with
    | none => eventsRunSnap stableSeconds none rest
    | some snap =>
      match pollStep stableSeconds t snap obs with
      | .dropped => eventsRunSnap stableSeconds none rest
      | .refreshed s => eventsRunSnap stableSeconds (some s) rest
      | .promoted => some (t, snap.1)
      | .kept => eventsRunSnap stableSeconds st rest

/-- Time of the first poll tick in an event list, if any. -/
def firstTickTime : List WatchEv → Option Nat
  | [] => none
  | .trackEv _ _ :: rest => firstTickTime rest
  | .tick t _ :: _ => some t

/-- Timing sanity of an event trace relative to the poll loop:
`a` is the time of the previous poll tick (or the loop start); every
tick arrives no earlier than the previous one and within one poll
interval `P` of it, and every filesystem event arrives no earlier than
the previous tick.  This is how the 5-second `_poll` loop interleaves
with watchdog events in real time. -/
def wellSpaced (P : Nat) : Nat → List WatchEv → Bool
  | _, [] => true
  | a, .trackEv u _ :: rest => decide (a ≤ u) && wellSpaced P a rest
  | a, .tick t _ :: rest =>
    decide (a ≤ t) && decide (t ≤ a + P) && wellSpaced P t rest

/-! ## Event filter (`watcher.py`, class `NewFileHandler`) -/

/-- The character `U+007B` (opening curly brace), used by the rename
pattern tokens and the glob character-class parser below. -/
def braceOpen : Char := Char.ofNat 123

/-- The character `U+007D` (closing curly brace). -/
def braceClose : Char := Char.ofNat 125

/-- Model of `os.path.basename` for POSIX paths: everything after the
last slash. -/
def basename (p : String) : String :=
  String.mk ((p.data.reverse.takeWhile (fun c => c ≠ '/')).reverse)

/-- Model of `os.path.splitext(path)[1].lstrip(".")`: the extension of
the basename without its leading dot.  As in CPython, leading dots of
the filename do not start an extension (".bashrc" and "..." have no
extension). -/
def extNoDot (p : String) : String :=
  let name := (basename p).data
  let revAfter := name.reverse.takeWhile (fun c => c ≠ '.')
  if revAfter.length = name.length then ""
  else
    let stemPart := name.take (name.length - revAfter.length - 1)
    if stemPart.any (fun c => c ≠ '.') then String.mk revAfter.reverse
    else ""

/-- Membership test of a character against a parsed glob character
class: a list of inclusive ranges (single characters are degenerate
ranges), possibly negated. -/
def matchClass (negated : Bool) (items : List (Char × Char)) (c : Char) : Bool :=
  let mem := items.any (fun r => r.1 ≤ c && c ≤ r.2)
  if negated then !mem else mem

/-- Parse the items of a glob character class body (the part between the
brackets): `a-b` denotes a range, any other character denotes itself. -/
def parseClassItems : List Char → List (Char × Char)
  | [] => []
  | a :: '-' :: b :: rest => (a, b) :: parseClassItems rest
  | a :: rest => (a, a) :: parseClassItems rest

/-- Parse a glob character class starting right after the opening
bracket, following `fnmatch.translate`: an optional leading `!` negates,
a `]` in the first content position is a literal member, and a missing
closing `]` means the opening bracket is matched literally (`none`). -/
def parseClass (cs : List Char) : Option (Bool × List (Char × Char) × List Char) :=
  let (negated, cs₁) :=
    match cs with
    | '!' :: rest => (true, rest)
    | _ => (false, cs)
  match cs₁ with
  | ']' :: rest =>
    match rest.dropWhile (fun c => c ≠ ']') with
    | [] => none
    | _ :: after =>
      some (negated, parseClassItems (']' :: rest.takeWhile (fun c => c ≠ ']')), after)
  | _ =>
    match cs₁.dropWhile (fun c => c ≠ ']') with
    | [] => none
    | _ :: after =>
      some (negated, parseClassItems (cs₁.takeWhile (fun c => c ≠ ']')), after)

/-- Glob matching worker.  The extra fuel argument only funds the
recursion (every step shortens pattern or name, so
`pattern.length + name.length + 1` is always enough); the matching
itself follows `fnmatch` (`*`, `?` and `[...]` classes, whole-name
anchored). -/
def globMatchF : Nat → List Char → List Char → Bool
  | 0, _, _ => false
  | _ + 1, [], s => s.isEmpty
  | fuel + 1, '*' :: ps, s =>
    globMatchF fuel ps s ||
      (match s with
       | [] => false
       | _ :: s' => globMatchF fuel ('*' :: ps) s')
  | fuel + 1, '?' :: ps, s =>
    (match s with
     | [] => false
     | _ :: s' => globMatchF fuel ps s')
  | fuel + 1, '[' :: ps, s =>
    (match parseClass ps with
     | none =>
       match s with
       | c :: s' => c = '[' && globMatchF fuel ps s'
       | [] => false
     | some (neg, items, rest) =>
       match s with
       | c :: s' => matchClass neg items c && globMatchF fuel rest s'
       | [] => false)
  | fuel + 1, c :: ps, s =>
    (match s with
     | c' :: s' => c = c' && globMatchF fuel ps s'
     | [] => false)

/-- Glob matching as performed by `fnmatch.fnmatch` on POSIX.  First
argument is the pattern, second the name. -/
def globMatch (p s : List Char) : Bool :=
  globMatchF (p.length + s.length + 1) p s

/-- Model of `str.lower()`, character-wise lowering of the string
(ASCII; the Unicode-wide lowering of Python is not needed by any
claim). -/
def lowerStr (s : String) : String :=
  String.mk (s.data.map Char.toLower)

/-- Case-lowered fnmatch as called by `_should_track`:
`fnmatch.fnmatch(name.lower(), p.lower())`. -/
def fnmatchLower (name pat : String) : Bool :=
  globMatch (lowerStr pat).data (lowerStr name).data

/-- Embedding of `NewFileHandler._should_track`.  `extensions = []`
models both `None` and the empty allow-list (the code treats both as
"accept all"). -/
def shouldTrack (extensions includePatterns excludePatterns : List String)
    (path : String) : Bool :=
  let name := basename path
  if !includePatterns.isEmpty &&
      !(includePatterns.any (fun p => fnmatchLower name p)) then
    false
  else if excludePatterns.any (fun p => fnmatchLower name p) then
    false
  else if extensions.isEmpty then
    true
  else
    extensions.contains (lowerStr (extNoDot path))

/-- Modelled from the spec (section 4.2): the filter stated as one
conjunction — include patterns (empty accepts all), then exclusion,
then the extension allow-list (empty accepts all). -/
def shouldTrackSpec (extensions includePatterns excludePatterns : List String)
    (path : String) : Bool :=
  let name := basename path
  (includePatterns.isEmpty || includePatterns.any (fun p => fnmatchLower name p)) &&
  !(excludePatterns.any (fun p => fnmatchLower name p)) &&
  (extensions.isEmpty || extensions.contains (lowerStr (extNoDot path)))

/-! ## Copy engine (`copier.py`) -/

/-- Decimal digit lists, little-endian, as produced by repeatedly
dividing by ten.  The first argument is recursion fuel; `n` itself is
always enough because the dividend strictly shrinks. -/
def decDigitsF : Nat → Nat → List Nat
  | 0, n => [n % 10]
  | fuel + 1, n => if n / 10 = 0 then [n % 10] else (n % 10) :: decDigitsF fuel (n / 10)

/-- Little-endian decimal digits of `n` (at least one digit). -/
def decDigits (n : Nat) : List Nat :=
  decDigitsF n n

/-- Value of a little-endian decimal digit list. -/
def decVal : List Nat → Nat
  | [] => 0
  | d :: ds => d + 10 * decVal ds

/-- Decimal rendering of a natural number, as Python's `str(int)` and
`"{n}".format(...)` produce. -/
def natToDec (n : Nat) : String :=
  String.mk (((decDigits n).map Nat.digitChar).reverse)

/-- Model of the Python string slice `s[:n]`. -/
def strTake (s : String) (n : Nat) : String :=
  String.mk (s.data.take n)

/-- Token values available to `_expand_rename_pattern`: the stem, the
extension without dot, the collision counter, and the current
date/time/timestamp renderings taken from one `datetime.now()` reading. -/
structure RenameClock where
  dateS : String
  timeS : String
  datetimeS : String
  ts : Nat
deriving DecidableEq

/-- Keyword lookup backing `pattern.format(...)` in
`_expand_rename_pattern`. -/
def renameTokenValue (name ext : String) (counter : Nat) (clock : RenameClock) :
    String → Option String :=
  fun tok =>
    if tok = "name" then some name
    else if tok = "ext" then some ext
    else if tok = "n" then some (natToDec counter)
    else if tok = "date" then some clock.dateS
    else if tok = "time" then some clock.timeS
    else if tok = "datetime" then some clock.datetimeS
    else if tok = "ts" then some (natToDec clock.ts)
    else none

/-- Single pass of `str.format` restricted to simple `\x7btoken\x7d`
fields, which is the shape the rename patterns use.  The first argument
is `some acc` while scanning the inside of a brace field (`acc` holds
the field's characters in reverse).  An unknown or unterminated field is
kept literally (Python raises `KeyError`/`ValueError` there; no claim
exercises that path). -/
def expandTokensAux (vals : String → Option String) :
    Option (List Char) → List Char → List Char
  | none, [] => []
  | none, c :: rest =>
    if c = braceOpen then expandTokensAux vals (some []) rest
    else c :: expandTokensAux vals none rest
  | some acc, [] => braceOpen :: acc.reverse
  | some acc, c :: rest =>
    if c = braceClose then
      match vals (String.mk acc.reverse) with
      | some v => v.data ++ expandTokensAux vals none rest
      | none => (braceOpen :: acc.reverse) ++ c :: expandTokensAux vals none rest
    else expandTokensAux vals (some (c :: acc)) rest

/-- Embedding of `_expand_rename_pattern`. -/
def expandRenamePattern (pattern name ext : String) (counter : Nat)
    (clock : RenameClock) : String :=
  String.mk (expandTokensAux (renameTokenValue name ext counter clock) none pattern.data)

/-- The default rename pattern `\x7bname\x7d_\x7bn\x7d.\x7bext\x7d`
(`DEFAULT_RENAME_PATTERN` in `config.py`, also the `FileCopier`
constructor default). -/
def defaultRenamePattern : String := "\x7bname\x7d_\x7bn\x7d.\x7bext\x7d"

/-- The three collision strategies of `config.py`. -/
inductive CollisionMode where
  | overwrite
  | rename
  | skip
deriving DecidableEq

/-- Embedding of `FileCopier._resolve_collision`.  `fsExists` tells
which file names exist in the destination directory, `destName` is the
name of the computed base destination, and `stem`/`ext` are its
`Path.stem` and `Path.suffix.lstrip(".")`.  `fallbackTs` is the
`int(time.time())` reading used when the counter space is exhausted.
Returns `none` when the file should be skipped. -/
def resolveCollision (mode : CollisionMode) (pattern : String)
    (clock : RenameClock) (fsExists : String → Bool)
    (destName stem ext : String) (fallbackTs : Nat) : Option String :=
  if !fsExists destName then some destName
  else
    match mode with
    | .overwrite => some destName
    | .skip => none
    | .rename =>
      match (List.range' 1 9999).find?
          (fun n => !fsExists (expandRenamePattern pattern stem ext n clock)) with
      | some n => some (expandRenamePattern pattern stem ext n clock)
      | none => some (stem ++ "_" ++ natToDec fallbackTs ++ "." ++ ext)

/-- Embedding of `FileCopier._passes_size_gate` (`0` disables a bound;
the Python thousands separators in the messages are not modelled). -/
def passesSizeGate (minSize maxSize size : Nat) : Bool × String :=
  if minSize ≠ 0 ∧ size < minSize then
    (false, "File too small (" ++ natToDec size ++ " < " ++ natToDec minSize ++ " bytes)")
  else if maxSize ≠ 0 ∧ size > maxSize then
    (false, "File too large (" ++ natToDec size ++ " > " ++ natToDec maxSize ++ " bytes)")
  else (true, "")

/-- Environment of one copy attempt: whether `shutil.copy2` raised an
`OSError` (and its message), the SHA-256 hex digests of source and
destination as computed after the copy, and the destination existence
and size check used when verification is off. -/
structure AttemptEnv where
  copyError : Option String
  srcHash : String
  dstHash : String
  destExistsAfter : Bool
  destSizeAfter : Nat
deriving DecidableEq

/-- The record fields one attempt iteration leaves behind. -/
structure AttemptResult where
  success : Bool
  verified : Bool
  error : String
deriving DecidableEq

/-- One iteration of the attempt loop of `FileCopier._do_copy`:
the copy itself, then the post-copy validation (SHA-256 comparison when
`verify` is on, existence and size check when it is off). -/
def runAttempt (verify : Bool) (srcSize : Nat) (e : AttemptEnv) : AttemptResult :=
  match e.copyError with
  | some msg => { success := false, verified := false, error := msg }
  | none =>
    if verify then
      if e.srcHash = e.dstHash then { success := true, verified := true, error := "" }
      else
        { success := false, verified := false,
          error := "Verification failed: SHA-256 mismatch (src=" ++
            strTake e.srcHash 12 ++ "… dst=" ++ strTake e.dstHash 12 ++ "…)" }
    else
      if e.destExistsAfter && e.destSizeAfter == srcSize then
        { success := true, verified := false, error := "" }
      else
        { success := false, verified := false, error := "Post-copy size mismatch" }

/-- The retry loop of `FileCopier._do_copy` over the list of available
attempts (one environment per allowed attempt).  Returns the final
attempt result, the number of attempts performed, and the number of
`retry_delay` waits (one after every failed attempt that is not the last
allowed one; the loop stops at the first success). -/
def copyLoop (verify : Bool) (srcSize : Nat) :
    List AttemptEnv → AttemptResult × Nat × Nat
  | [] => ({ success := false, verified := false, error := "" }, 0, 0)
  | [e] => (runAttempt verify srcSize e, 1, 0)
  | e :: e' :: rest =>
    let r := runAttempt verify srcSize e
    if r.success then (r, 1, 0)
    else
      let out := copyLoop verify srcSize (e' :: rest)
      (out.1, out.2.1 + 1, out.2.2 + 1)

/-- The fields of `CopyRecord` that the engine computes (the wall-clock
`started`/`finished` stamps are not modelled). -/
structure CopyRecord where
  source : String
  destination : String
  size_bytes : Nat
  success : Bool
  verified : Bool
  skipped : Bool
  error : String
deriving DecidableEq

/-- The copy configuration of one `FileCopier` instance (`retry_count`
is non-negative: the code clamps it with `max(0, retry_count)` and the
configuration setter stores `max(0, int(value))`). -/
structure CopyConfig where
  verify : Bool
  minSize : Nat
  maxSize : Nat
  retryCount : Nat
  collisionMode : CollisionMode
  renamePattern : String

/-- Snapshot of the filesystem interactions of one `_do_copy` call. -/
structure FsView where
  sourceExists : Bool
  srcSize : Nat
  fsExists : String → Bool
  attemptEnv : Nat → AttemptEnv
  clock : RenameClock
  fallbackTs : Nat

/-- Embedding of `FileCopier._do_copy` for one file.  `sourceName` is
the source path, `destName` the base destination computed by
`_base_destination`, and `stem`/`ext` its stem and dotless suffix.
Returns the finalized record together with the number of copy attempts
performed and the number of retry-delay waits. -/
def doCopy (cfg : CopyConfig) (sourceName destName stem ext : String)
    (fs : FsView) : CopyRecord × Nat × Nat :=
  let rec0 : CopyRecord :=
    { source := sourceName, destination := "", size_bytes := 0,
      success := false, verified := false, skipped := false, error := "" }
  if !fs.sourceExists then
    ({ rec0 with error := "Source file no longer exists" }, 0, 0)
  else
    let size := fs.srcSize
    let gate := passesSizeGate cfg.minSize cfg.maxSize size
    if !gate.1 then
      ({ rec0 with size_bytes := size, skipped := true, error := gate.2 }, 0, 0)
    else
      match resolveCollision cfg.collisionMode cfg.renamePattern fs.clock
          fs.fsExists destName stem ext fs.fallbackTs with
      | none =>
        ({ rec0 with size_bytes := size, skipped := true, destination := destName,
                     error := "Skipped (collision, file already exists)" }, 0, 0)
      | some dest =>
        let maxAttempts := 1 + cfg.retryCount
        let out := copyLoop cfg.verify size ((List.range maxAttempts).map fs.attemptEnv)
        ({ rec0 with destination := dest, size_bytes := size,
                     success := out.1.success, verified := out.1.verified,
                     error := out.1.error }, out.2.1, out.2.2)

/-! ## Copy statistics (`copier.py`, class `CopyStats`) -/

/-- The aggregate counters and bounded history of `CopyStats` (the
mutex is concurrency plumbing and is not modelled; `record` below is the
critical section it guards). -/
structure CopyStats where
  total_copied : Nat
  total_failed : Nat
  total_skipped : Nat
  total_bytes : Nat
  total_verified : Nat
  last_copied_file : String
  history : List CopyRecord

/-- The all-zero statistics a fresh `FileCopier` starts with. -/
def emptyStats : CopyStats :=
  { total_copied := 0, total_failed := 0, total_skipped := 0, total_bytes := 0,
    total_verified := 0, last_copied_file := "", history := [] }

/-- Embedding of `CopyStats.record`: append to the history, bump the
counters, keep the last 1000 records. -/
def CopyStats.record (s : CopyStats) (r : CopyRecord) : CopyStats :=
  let s₁ := { s with history := s.history ++ [r] }
  let s₂ :=
    if r.skipped then
      { s₁ with total_skipped := s₁.total_skipped + 1 }
    else if r.success then
      { s₁ with total_copied := s₁.total_copied + 1,
                total_bytes := s₁.total_bytes + r.size_bytes,
                last_copied_file := r.destination,
                total_verified := s₁.total_verified + if r.verified then 1 else 0 }
    else
      { s₁ with total_failed := s₁.total_failed + 1 }
  if s₂.history.length > 1000 then
    { s₂ with history := s₂.history.drop (s₂.history.length - 1000) }
  else s₂

/-- Recording a whole completion sequence, oldest first. -/
def recordAll (s : CopyStats) (recs : List CopyRecord) : CopyStats :=
  recs.foldl CopyStats.record s

/-- Embedding of `FileCopier.copy_all_now`: it enumerates the source
root with glob pattern `**/*` (structure preservation on) or `*` (off),
queues each regular file, and returns the count.  The directory listing
is passed in as `(path, is_file)` pairs for both glob patterns. -/
def copyAllNow (preserveStructure srcIsDir : Bool)
    (topEntries allEntries : List (String × Bool)) : Nat :=
  if !srcIsDir then 0
  else ((if preserveStructure then allEntries else topEntries).filter
    (fun e => e.2)).length

/-! ## Helper lemmas -/

theorem stringDataAppend (a b : String) : (a ++ b).data = a.data ++ b.data := by
  obtain ⟨a⟩ := a
  obtain ⟨b⟩ := b
  rfl

theorem stringExtOfData {a b : String} (h : a.data = b.data) : a = b := by
  obtain ⟨a⟩ := a
  obtain ⟨b⟩ := b
  exact congrArg String.mk h

theorem stringAppendAssoc (a b c : String) : a ++ b ++ c = a ++ (b ++ c) := by
  apply stringExtOfData
  simp [stringDataAppend]

/-! ## Claim C1 — post-copy SHA-256 verification -/

/-- C1: with verification enabled and the byte copy completed, the
attempt outcome has `verified = true` exactly when the source and
destination SHA-256 digests agree; on a mismatch the attempt fails with
`success = false` and a non-empty error containing the first 12 hex
characters of each digest. -/
theorem claim_C1_verification (srcSize : Nat) (e : AttemptEnv)
    (hcopy : e.copyError = none) :
    ((runAttempt true srcSize e).verified = true ↔ e.srcHash = e.dstHash) ∧
    (e.srcHash = e.dstHash → (runAttempt true srcSize e).success = true) ∧
    (e.srcHash ≠ e.dstHash →
      (runAttempt true srcSize e).success = false ∧
      (runAttempt true srcSize e).error ≠ "" ∧
      (∃ p q, (runAttempt true srcSize e).error = p ++ strTake e.srcHash 12 ++ q) ∧
      (∃ p q, (runAttempt true srcSize e).error = p ++ strTake e.dstHash 12 ++ q)) := by
  by_cases h : e.srcHash = e.dstHash
  · simp [runAttempt, hcopy, h]
  · refine ⟨by simp [runAttempt, hcopy, h], fun hc => absurd hc h, fun _ => ?_⟩
    refine ⟨by simp [runAttempt, hcopy, h], ?_, ?_, ?_⟩
    · simp only [runAttempt, hcopy, if_neg h]
      intro hempty
      have := congrArg String.data hempty
      simp [stringDataAppend] at this
    · refine ⟨"Verification failed: SHA-256 mismatch (src=",
        "… dst=" ++ strTake e.dstHash 12 ++ "…)", ?_⟩
      simp only [runAttempt, hcopy, if_neg h]
      simp [stringAppendAssoc]
    · refine ⟨"Verification failed: SHA-256 mismatch (src=" ++
        strTake e.srcHash 12 ++ "… dst=", "…)", ?_⟩
      simp only [runAttempt, hcopy, if_neg h]
      simp [stringAppendAssoc]

/-- C1 witness: a concrete mismatching pair of digests. -/
theorem claim_C1_verification_witness :
    (⟨none, "aaaa", "bbbb", true, 7⟩ : AttemptEnv).copyError = none ∧
    ¬ ("aaaa" : String) = "bbbb" ∧
    ((runAttempt true 7 ⟨none, "aaaa", "bbbb", true, 7⟩).verified = true ↔
      ("aaaa" : String) = "bbbb") ∧
    (runAttempt true 7 ⟨none, "aaaa", "bbbb", true, 7⟩).success = false := by
  have h := claim_C1_verification 7 ⟨none, "aaaa", "bbbb", true, 7⟩ rfl
  exact ⟨rfl, by decide, h.1, (h.2.2 (by decide)).1⟩

/-! ## Claim C8 — filter evaluation order -/

/-- C8: `_should_track` equals the spec's conjunction: include patterns
first (empty list accepts all), then exclude patterns, then the
extension allow-list on the lowercased dotless extension (empty list
accepts all), all case-insensitive on the basename. -/
theorem claim_C8_filter_order
    (extensions includePatterns excludePatterns : List String) (path : String) :
    shouldTrack extensions includePatterns excludePatterns path =
      shouldTrackSpec extensions includePatterns excludePatterns path := by
  unfold shouldTrack shouldTrackSpec
  cases hinc : includePatterns.isEmpty <;>
    cases hany : includePatterns.any (fun p => fnmatchLower (basename path) p) <;>
      cases hexc : excludePatterns.any (fun p => fnmatchLower (basename path) p) <;>
        cases hext : extensions.isEmpty <;>
          simp [hinc, hany, hexc, hext]

/-! ## Claim C2 — promotion window of the stability tracker -/

theorem firstTickTime_bounds (P : Nat) :
    ∀ (evs : List WatchEv) (a t : Nat),
      wellSpaced P a evs = true → firstTickTime evs = some t →
      a ≤ t ∧ t ≤ a + P := by
  intro evs
  induction evs with
  | nil => intro a t _ ht; simp [firstTickTime] at ht
  | cons ev rest ih =>
    intro a t hws ht
    cases ev with
    | trackEv u sz =>
      simp only [wellSpaced, Bool.and_eq_true, decide_eq_true_eq] at hws
      exact ih a t hws.2 ht
    | tick t' obs =>
      simp only [wellSpaced, Bool.and_eq_true, decide_eq_true_eq] at hws
      simp only [firstTickTime] at ht
      have : t' = t := Option.some.inj ht
      subst this
      exact ⟨hws.1.1, hws.1.2⟩

/-- Promotion window in the full tracker model (`track` calls and poll
ticks interleaved): starting from an untracked file, with
`stable_seconds ≥ 1` and a well-spaced trace, every promotion happens at
least `stable_seconds` and strictly less than
`stable_seconds + poll_interval` after the stored snapshot time, i.e.
after the last snapshot refresh. -/
theorem eventsRunSnap_window (S P : Nat) (hS : 1 ≤ S) :
    ∀ (evs : List WatchEv) (st : Option (Nat × Nat)) (a : Nat),
      wellSpaced P a evs = true →
      (∀ snap : Nat × Nat, st = some snap →
        ∀ t, firstTickTime evs = some t → t < snap.1 + S + P) →
      ∀ tp ls, eventsRunSnap S st evs = some (tp, ls) →
        S ≤ tp - ls ∧ tp - ls < S + P := by
  intro evs
  induction evs with
  | nil => intro st a _ _ tp ls hrun; simp [eventsRunSnap] at hrun
  | cons ev rest ih =>
    intro st a hws hstate tp ls hrun
    cases ev with
    | trackEv u sz =>
      simp only [wellSpaced, Bool.and_eq_true, decide_eq_true_eq] at hws
      simp only [eventsRunSnap] at hrun
      refine ih (some (u, sz)) a hws.2 ?_ tp ls hrun
      intro snap hsnap t ht
      have hsn : (u, sz) = snap := Option.some.inj hsnap
      subst hsn
      have hb := firstTickTime_bounds P rest a t hws.2 ht
      simp only
      omega
    | tick t obs =>
      simp only [wellSpaced, Bool.and_eq_true, decide_eq_true_eq] at hws
      obtain ⟨⟨hat, htP⟩, hws'⟩ := hws
      cases hst : st with
      | none =>
        rw [hst] at hrun
        simp only [eventsRunSnap] at hrun
        exact ih none t hws' (by intro snap hsnap; cases hsnap) tp ls hrun
      | some snap =>
        obtain ⟨ls₀, sz₀⟩ := snap
        have hts : t < ls₀ + S + P := by
          refine hstate (ls₀, sz₀) hst t ?_
          simp [firstTickTime]
        rw [hst] at hrun
        cases hobs : obs with
        | none =>
          have hstep : pollStep S t (ls₀, sz₀) obs = .dropped := by
            simp [pollStep, hobs]
          simp only [eventsRunSnap, hstep] at hrun
          exact ih none t hws' (by intro snap hsnap; cases hsnap) tp ls hrun
        | some sz' =>
          by_cases hsz : sz' = sz₀
          · by_cases hprom : S ≤ t - ls₀
            · have hstep : pollStep S t (ls₀, sz₀) obs = .promoted := by
                simp [pollStep, hobs, hsz, hprom]
              simp only [eventsRunSnap, hstep] at hrun
              have h1 : t = tp := congrArg Prod.fst (Option.some.inj hrun)
              have h2 : ls₀ = ls := congrArg Prod.snd (Option.some.inj hrun)
              subst h1; subst h2
              exact ⟨hprom, by omega⟩
            · have hstep : pollStep S t (ls₀, sz₀) obs = .kept := by
                simp [pollStep, hobs, hsz, hprom]
              simp only [eventsRunSnap, hstep] at hrun
              refine ih (some (ls₀, sz₀)) t hws' ?_ tp ls hrun
              intro snap hsnap t' ht'
              have hsn : (ls₀, sz₀) = snap := Option.some.inj hsnap
              subst hsn
              have hb := firstTickTime_bounds P rest t t' hws' ht'
              simp only
              omega
          · have hstep : pollStep S t (ls₀, sz₀) obs = .refreshed (t, sz') := by
              simp [pollStep, hobs, hsz]
            simp only [eventsRunSnap, hstep] at hrun
            refine ih (some (t, sz')) t hws' ?_ tp ls hrun
            intro snap hsnap t' ht'
            have hsn : (t, sz') = snap := Option.some.inj hsnap
            subst hsn
            have hb := firstTickTime_bounds P rest t t' hws' ht'
            simp only
            omega

/-- C2 (amended): in the full tracker model (filesystem events routed
through `track` interleaved with poll ticks, starting from an untracked
file), every promotion happens at least `stable_seconds` and — for
`stable_seconds ≥ 1` with ticks at most one poll interval apart —
strictly less than `stable_seconds + poll_interval` after the **last
snapshot refresh**, which is the most recent `track` call or size-change
observation for the file (`track` refreshes the snapshot even when the
size is unchanged, claim C10).  Because the last observed size change is
never later than the last snapshot refresh, promotion is also at least
`stable_seconds` after the last observed size change, but it can be
arbitrarily more than `stable_seconds + poll_interval` after it;
measured from the refresh, elapsed time can equal exactly one poll
interval when `stable_seconds = 0` (see the counterexample for both
violations of the original bound).  During each poll tick a candidate
whose observed size differs from the stored size has its snapshot
refreshed to `(now, new size)` instead of being promoted. -/
theorem claim_C2_promotion_window (S P t₀ : Nat) (evs : List WatchEv)
    (tp ls : Nat)
    (hS : 1 ≤ S)
    (hspace : wellSpaced P t₀ evs = true)
    (hrun : eventsRunSnap S none evs = some (tp, ls)) :
    (S ≤ tp - ls ∧ tp - ls < S + P) ∧
    (∀ u, u ≤ ls → S ≤ tp - u) ∧
    (∀ now snap' sz', sz' ≠ snap'.2 →
      pollStep S now snap' (some sz') = .refreshed (now, sz')) := by
  have h := eventsRunSnap_window S P hS evs none t₀ hspace
    (by intro snap hsnap; cases hsnap) tp ls hrun
  refine ⟨h, ?_, ?_⟩
  · intro u hu
    have := h.1
    omega
  · intro now snap' sz' hne
    simp [pollStep, hne]

/-- C2 witness: stable_seconds 3, poll interval 4, a track event at
time 1 and ticks at 4 and 8; promotion at time 4 with snapshot time 1,
elapsed 3 ∈ [3, 7). -/
theorem claim_C2_promotion_window_witness :
    eventsRunSnap 3 none
      [.trackEv 1 5, .tick 4 (some 5), .tick 8 (some 5)] = some (4, 1) ∧
    (3 ≤ 4 - 1 ∧ 4 - 1 < 3 + 4) ∧
    (∀ u, u ≤ 1 → 3 ≤ 4 - u) ∧
    pollStep 3 9 (2, 5) (some 6) = .refreshed (9, 6) := by
  have h := claim_C2_promotion_window 3 4 0
    [.trackEv 1 5, .tick 4 (some 5), .tick 8 (some 5)] 4 1
    (by decide) (by decide) (by decide)
  exact ⟨by decide, h.1, h.2.1, h.2.2 9 (2, 5) 6 (by decide)⟩

/-- C2 counterexample, two parts.  First, with `stable_seconds = 0` and
poll interval 5, a size change observed at the tick at time 5 leads to
promotion at time 10: elapsed time exactly `stable_seconds +
poll_interval`, violating the claimed strict upper bound.  Second, with
`stable_seconds = 5` and poll interval 5, the last observed size change
is at the tick at time 2 (the size is 10 from then on), but `track`
calls at times 7 and 12 keep refreshing the snapshot, so promotion
happens at time 17: elapsed time 15 since the last observed size change,
at least `stable_seconds + poll_interval = 10` — and the trace is
well spaced, so no tick-spacing assumption is violated. -/
theorem claim_C2_counterexample :
    (pollRun 0 (0, 5) [⟨5, some 10⟩, ⟨10, some 10⟩] = some (10, 5) ∧
      ¬ (10 - 5 < 0 + 5)) ∧
    (eventsRunSnap 5 none
        [.trackEv 0 5, .tick 2 (some 10), .trackEv 7 10, .tick 7 (some 10),
         .trackEv 12 10, .tick 12 (some 10), .tick 17 (some 10)] =
      some (17, 12) ∧
      wellSpaced 5 0
        [.trackEv 0 5, .tick 2 (some 10), .trackEv 7 10, .tick 7 (some 10),
         .trackEv 12 10, .tick 12 (some 10), .tick 17 (some 10)] = true ∧
      ¬ (17 - 2 < 5 + 5)) := by
  decide

/-! ## Claim C10 — track() resets the stability clock on every event -/

/-- Tracker run in which every poll tick is within strictly less than
`stable_seconds` of the preceding filesystem event never promotes, even
though the size never changes. -/
theorem hammer_no_promotion (S sz : Nat) :
    ∀ (pairs : List (Nat × Nat)) (st : Option (Nat × Nat)),
      (∀ p ∈ pairs, p.2 - p.1 < S) →
      eventsRun S st (hammerEvents sz pairs) = none := by
  intro pairs
  induction pairs with
  | nil => intro st _; rfl
  | cons p rest ih =>
    intro st hlt
    obtain ⟨u, t⟩ := p
    have hut : t - u < S := hlt (u, t) (by simp)
    have hstep : pollStep S t (u, sz) (some sz) = .kept := by
      simp [pollStep]
      omega
    simp only [hammerEvents, eventsRun, hstep]
    exact ih (some (u, sz)) (fun q hq => hlt q (by simp [hq]))

/-- C10: a `track` call that successfully stats the file unconditionally
resets the stored snapshot to `(now, size)` even when the size is
unchanged, and consequently a stream of filesystem events each followed
by a poll tick within strictly less than `stable_seconds` postpones
promotion forever although the size never changes. -/
theorem claim_C10_track_resets_clock :
    (∀ (pending : String → Option (Nat × Nat)) (path : String) (t₀ s now : Nat),
      pending path = some (t₀, s) →
      track pending path true (some s) now path = some (now, s)) ∧
    (∀ (S sz : Nat) (pairs : List (Nat × Nat)) (st : Option (Nat × Nat)),
      (∀ p ∈ pairs, p.2 - p.1 < S) →
      eventsRun S st (hammerEvents sz pairs) = none) := by
  constructor
  · intro pending path t₀ s now _
    simp [track]
  · exact fun S sz => hammer_no_promotion S sz

/-- C10 witness: a stored snapshot `(0, 7)` is reset to `(9, 7)` by an
event at time 9 with the same size 7, and a track/tick alternation with
gaps below `stable_seconds = 5` never promotes. -/
theorem claim_C10_track_resets_clock_witness :
    track (fun _ => some (0, 7)) "a" true (some 7) 9 "a" = some (9, 7) ∧
    eventsRun 5 none (hammerEvents 7 [(0, 3), (4, 7), (8, 11)]) = none := by
  have h := claim_C10_track_resets_clock
  exact ⟨h.1 (fun _ => some (0, 7)) "a" 0 7 9 rfl,
    h.2 5 7 [(0, 3), (4, 7), (8, 11)] none (by decide)⟩


/-! ## Claim C6 -- aggregate counters and the bounded history -/

/-- The last-1000 suffix kept by `CopyStats.record` (a no-op on lists of
at most 1000 elements). -/
def trimHistory (l : List CopyRecord) : List CopyRecord :=
  l.drop (l.length - 1000)

theorem record_history (s : CopyStats) (r : CopyRecord) :
    (s.record r).history = trimHistory (s.history ++ [r]) := by
  unfold CopyStats.record trimHistory
  by_cases hs : r.skipped <;> by_cases hc : r.success <;>
    by_cases hlen : 1000 < s.history.length + 1 <;>
      simp [hs, hc, hlen] <;>
        (rw [show s.history.length - 999 = 0 by omega]; simp)


theorem record_counters (s : CopyStats) (r : CopyRecord) :
    (s.record r).total_skipped = s.total_skipped + (if r.skipped then 1 else 0) ∧
    (s.record r).total_copied =
      s.total_copied + (if !r.skipped && r.success then 1 else 0) ∧
    (s.record r).total_failed =
      s.total_failed + (if !r.skipped && !r.success then 1 else 0) ∧
    (s.record r).total_bytes =
      s.total_bytes + (if !r.skipped && r.success then r.size_bytes else 0) ∧
    (s.record r).total_verified =
      s.total_verified +
        (if !r.skipped && r.success && r.verified then 1 else 0) := by
  unfold CopyStats.record
  by_cases hs : r.skipped <;> by_cases hc : r.success <;> by_cases hv : r.verified <;>
    by_cases hlen : 1000 < s.history.length + 1 <;>
      simp [hs, hc, hv, hlen]


theorem trimHistory_length (l : List CopyRecord) :
    (trimHistory l).length = min l.length 1000 := by
  simp [trimHistory]
  omega

theorem trimHistory_append (l m : List CopyRecord) :
    trimHistory (trimHistory l ++ m) = trimHistory (l ++ m) := by
  unfold trimHistory
  by_cases hL : l.length ≤ 1000
  · rw [show l.length - 1000 = 0 by omega, List.drop_zero]
  · simp only [List.drop_append_eq_append_drop, List.drop_drop,
      List.length_append, List.length_drop]
    have e1 : l.length - 1000 + (l.length - (l.length - 1000) + m.length - 1000) =
        l.length + m.length - 1000 := by omega
    have e2 : l.length - (l.length - 1000) + m.length - 1000 -
        (l.length - (l.length - 1000)) = l.length + m.length - 1000 - l.length := by
      omega
    rw [e1, e2]

theorem recordAll_history (recs : List CopyRecord) :
    ∀ s : CopyStats, s.history.length ≤ 1000 →
      (recordAll s recs).history = trimHistory (s.history ++ recs) := by
  induction recs with
  | nil =>
    intro s hlen
    unfold recordAll trimHistory
    simp
    rw [show s.history.length - 1000 = 0 by omega, List.drop_zero]
  | cons r rest ih =>
    intro s hlen
    have hstep : (recordAll s (r :: rest)) = recordAll (s.record r) rest := rfl
    rw [hstep, ih (s.record r) (by rw [record_history, trimHistory_length]; omega)]
    rw [record_history, trimHistory_append]
    congr 1
    simp


theorem recordAll_counters (recs : List CopyRecord) :
    ∀ s : CopyStats,
      (recordAll s recs).total_skipped =
        s.total_skipped + recs.countP (fun r => r.skipped) ∧
      (recordAll s recs).total_copied =
        s.total_copied + recs.countP (fun r => !r.skipped && r.success) ∧
      (recordAll s recs).total_failed =
        s.total_failed + recs.countP (fun r => !r.skipped && !r.success) ∧
      (recordAll s recs).total_bytes =
        s.total_bytes + ((recs.filter (fun r => !r.skipped && r.success)).map
          (fun r => r.size_bytes)).sum ∧
      (recordAll s recs).total_verified =
        s.total_verified +
          recs.countP (fun r => !r.skipped && r.success && r.verified) := by
  induction recs with
  | nil => intro s; simp [recordAll]
  | cons r rest ih =>
    intro s
    have hstep : (recordAll s (r :: rest)) = recordAll (s.record r) rest := rfl
    have hc := record_counters s r
    have hr := ih (s.record r)
    rw [hstep]
    refine ⟨?_, ?_, ?_, ?_, ?_⟩
    · rw [hr.1, hc.1, List.countP_cons]
      by_cases hsk : r.skipped <;> simp [hsk] <;> omega
    · rw [hr.2.1, hc.2.1, List.countP_cons]
      by_cases hsk : r.skipped <;> by_cases hsc : r.success <;>
        simp [hsk, hsc] <;> omega
    · rw [hr.2.2.1, hc.2.2.1, List.countP_cons]
      by_cases hsk : r.skipped <;> by_cases hsc : r.success <;>
        simp [hsk, hsc] <;> omega
    · rw [hr.2.2.2.1, hc.2.2.2.1, List.filter_cons]
      by_cases hsk : r.skipped <;> by_cases hsc : r.success <;>
        simp [hsk, hsc] <;> omega
    · rw [hr.2.2.2.2, hc.2.2.2.2, List.countP_cons]
      by_cases hsk : r.skipped <;> by_cases hsc : r.success <;>
        by_cases hv : r.verified <;> simp [hsk, hsc, hv] <;> omega

theorem countP_partition_three (recs : List CopyRecord) :
    recs.countP (fun r => !r.skipped && r.success) +
      recs.countP (fun r => !r.skipped && !r.success) +
      recs.countP (fun r => r.skipped) = recs.length := by
  induction recs with
  | nil => simp
  | cons r rest ih =>
    simp only [List.countP_cons, List.length_cons]
    by_cases hsk : r.skipped <;> by_cases hsc : r.success <;>
      simp [hsk, hsc] <;> omega

/-- C6: after recording `n` records into fresh statistics, the history
holds exactly the most recent `min n 1000` records in insertion order
(oldest evicted first: the history is a suffix of the full sequence),
while the aggregate counters reflect every record ever recorded:
`total_skipped` counts the skipped records, `total_copied` the
non-skipped successes (with `total_bytes` and `total_verified`
accumulated from them), `total_failed` the rest, and the three counters
sum to `n`. -/
theorem claim_C6_stats_aggregate (recs : List CopyRecord) :
    (recordAll emptyStats recs).history = recs.drop (recs.length - 1000) ∧
    (recordAll emptyStats recs).history.length = min recs.length 1000 ∧
    (recordAll emptyStats recs).total_skipped =
      recs.countP (fun r => r.skipped) ∧
    (recordAll emptyStats recs).total_copied =
      recs.countP (fun r => !r.skipped && r.success) ∧
    (recordAll emptyStats recs).total_failed =
      recs.countP (fun r => !r.skipped && !r.success) ∧
    (recordAll emptyStats recs).total_copied +
      (recordAll emptyStats recs).total_failed +
      (recordAll emptyStats recs).total_skipped = recs.length ∧
    (recordAll emptyStats recs).total_bytes =
      ((recs.filter (fun r => !r.skipped && r.success)).map
        (fun r => r.size_bytes)).sum ∧
    (recordAll emptyStats recs).total_verified =
      recs.countP (fun r => !r.skipped && r.success && r.verified) := by
  have hh : (recordAll emptyStats recs).history = trimHistory recs := by
    have h := recordAll_history recs emptyStats
      (by rw [show emptyStats.history = ([] : List CopyRecord) from rfl]; simp)
    rw [show emptyStats.history = ([] : List CopyRecord) from rfl,
      List.nil_append] at h
    exact h
  have hc := recordAll_counters recs emptyStats
  rw [show emptyStats.total_skipped = 0 from rfl,
    show emptyStats.total_copied = 0 from rfl,
    show emptyStats.total_failed = 0 from rfl,
    show emptyStats.total_bytes = 0 from rfl,
    show emptyStats.total_verified = 0 from rfl] at hc
  simp only [Nat.zero_add] at hc
  refine ⟨by rw [hh]; rfl, by rw [hh, trimHistory_length], hc.1, hc.2.1, hc.2.2.1,
    ?_, hc.2.2.2.1, hc.2.2.2.2⟩
  rw [hc.2.1, hc.2.2.1, hc.1]
  exact countP_partition_three recs


/-! ## Claim C3 -- bounded retry with fixed delay -/

theorem copyLoop_first_success (v : Bool) (sz : Nat) :
    ∀ (fails : List AttemptEnv) (e : AttemptEnv) (rest : List AttemptEnv),
      (∀ f ∈ fails, (runAttempt v sz f).success = false) →
      (runAttempt v sz e).success = true →
      copyLoop v sz (fails ++ e :: rest) =
        (runAttempt v sz e, fails.length + 1, fails.length) := by
  intro fails
  induction fails with
  | nil =>
    intro e rest _ hsucc
    cases rest with
    | nil => simp [copyLoop]
    | cons e' tl => simp [copyLoop, hsucc]
  | cons f fs ih =>
    intro e rest hfail hsucc
    have hffail : (runAttempt v sz f).success = false := hfail f (by simp)
    cases fs with
    | nil =>
      have htail := ih e rest (by intro x hx; simp at hx) hsucc
      simp only [List.nil_append] at htail
      simp [copyLoop, hffail, htail]
    | cons g gs =>
      have htail := ih e rest (fun x hx => hfail x (by simp [hx])) hsucc
      simp only [List.cons_append] at htail ⊢
      simp [copyLoop, hffail, htail]

theorem copyLoop_all_fail (v : Bool) (sz : Nat) :
    ∀ (pre : List AttemptEnv) (last : AttemptEnv),
      (∀ e ∈ pre, (runAttempt v sz e).success = false) →
      copyLoop v sz (pre ++ [last]) =
        (runAttempt v sz last, pre.length + 1, pre.length) := by
  intro pre
  induction pre with
  | nil => intro last _; simp [copyLoop]
  | cons f fs ih =>
    intro last hfail
    have hffail : (runAttempt v sz f).success = false := hfail f (by simp)
    cases fs with
    | nil => simp [copyLoop, hffail]
    | cons g gs =>
      have htail := ih last (fun x hx => hfail x (by simp [hx]))
      simp only [List.cons_append] at htail ⊢
      simp [copyLoop, hffail, htail]

theorem copyLoop_used_le (v : Bool) (sz : Nat) :
    ∀ envs : List AttemptEnv, (copyLoop v sz envs).2.1 ≤ envs.length := by
  intro envs
  induction envs with
  | nil => simp [copyLoop]
  | cons e rest ih =>
    cases rest with
    | nil => simp [copyLoop]
    | cons e' tl =>
      simp only [List.length_cons] at ih ⊢
      by_cases h : (runAttempt v sz e).success <;> simp [copyLoop, h]
      omega


theorem doCopy_attempts (cfg : CopyConfig) (srcName destName stem ext : String)
    (fs : FsView) (dest : String)
    (hsrc : fs.sourceExists = true)
    (hgate : (passesSizeGate cfg.minSize cfg.maxSize fs.srcSize).1 = true)
    (hres : resolveCollision cfg.collisionMode cfg.renamePattern fs.clock
      fs.fsExists destName stem ext fs.fallbackTs = some dest) :
    doCopy cfg srcName destName stem ext fs =
      ({ source := srcName, destination := dest, size_bytes := fs.srcSize,
         success := (copyLoop cfg.verify fs.srcSize
           ((List.range (1 + cfg.retryCount)).map fs.attemptEnv)).1.success,
         verified := (copyLoop cfg.verify fs.srcSize
           ((List.range (1 + cfg.retryCount)).map fs.attemptEnv)).1.verified,
         skipped := false,
         error := (copyLoop cfg.verify fs.srcSize
           ((List.range (1 + cfg.retryCount)).map fs.attemptEnv)).1.error },
       (copyLoop cfg.verify fs.srcSize
         ((List.range (1 + cfg.retryCount)).map fs.attemptEnv)).2.1,
       (copyLoop cfg.verify fs.srcSize
         ((List.range (1 + cfg.retryCount)).map fs.attemptEnv)).2.2) := by
  unfold doCopy
  simp [hsrc, hgate, hres]

theorem range_split_at (k rc : Nat) (hk : k ≤ rc) :
    List.range (1 + rc) = List.range k ++ k :: List.range' (k + 1) (rc - k) := by
  rw [List.range_eq_range' (1 + rc)]
  rw [show 1 + rc = (1 + rc - k) + k by omega]
  rw [← List.range'_append 0 k (1 + rc - k) 1]
  rw [show (0 + 1 * k) = k by omega]
  rw [show 1 + rc - k = (rc - k) + 1 by omega]
  rw [List.range'_succ k (rc - k) 1]
  rw [← List.range_eq_range' k]


/-- C3: under the hypotheses that the source exists, the size gate
passes and collision resolution yields a destination, the byte copy is
attempted at most `1 + retry_count` times; if attempts `1..k` fail and
attempt `k+1` succeeds (`k ≤ retry_count`) the record finalizes with
`success = true` after exactly `k` delay waits and `k+1` attempts; if
every allowed attempt fails the record finalizes with `success = false`
and the last attempt error text after `retry_count` delay waits. -/
theorem claim_C3_retry_policy (cfg : CopyConfig) (srcName destName stem ext : String)
    (fs : FsView) (dest : String)
    (hsrc : fs.sourceExists = true)
    (hgate : (passesSizeGate cfg.minSize cfg.maxSize fs.srcSize).1 = true)
    (hres : resolveCollision cfg.collisionMode cfg.renamePattern fs.clock
      fs.fsExists destName stem ext fs.fallbackTs = some dest) :
    (doCopy cfg srcName destName stem ext fs).2.1 ≤ 1 + cfg.retryCount ∧
    (∀ k, k ≤ cfg.retryCount →
      (∀ i, i < k → (runAttempt cfg.verify fs.srcSize (fs.attemptEnv i)).success = false) →
      (runAttempt cfg.verify fs.srcSize (fs.attemptEnv k)).success = true →
      (doCopy cfg srcName destName stem ext fs).1.success = true ∧
      (doCopy cfg srcName destName stem ext fs).2.1 = k + 1 ∧
      (doCopy cfg srcName destName stem ext fs).2.2 = k) ∧
    ((∀ i, i < 1 + cfg.retryCount →
        (runAttempt cfg.verify fs.srcSize (fs.attemptEnv i)).success = false) →
      (doCopy cfg srcName destName stem ext fs).1.success = false ∧
      (doCopy cfg srcName destName stem ext fs).1.error =
        (runAttempt cfg.verify fs.srcSize (fs.attemptEnv cfg.retryCount)).error ∧
      (doCopy cfg srcName destName stem ext fs).2.1 = 1 + cfg.retryCount ∧
      (doCopy cfg srcName destName stem ext fs).2.2 = cfg.retryCount) := by
  have hd := doCopy_attempts cfg srcName destName stem ext fs dest hsrc hgate hres
  refine ⟨?_, ?_, ?_⟩
  · rw [hd]
    have h := copyLoop_used_le cfg.verify fs.srcSize
      ((List.range (1 + cfg.retryCount)).map fs.attemptEnv)
    simpa using h
  · intro k hk hfails hsucc
    have hsplit := range_split_at k cfg.retryCount hk
    have hcl : copyLoop cfg.verify fs.srcSize
        ((List.range (1 + cfg.retryCount)).map fs.attemptEnv) =
        (runAttempt cfg.verify fs.srcSize (fs.attemptEnv k),
          ((List.range k).map fs.attemptEnv).length + 1,
          ((List.range k).map fs.attemptEnv).length) := by
      rw [hsplit, List.map_append, List.map_cons]
      exact copyLoop_first_success cfg.verify fs.srcSize
        ((List.range k).map fs.attemptEnv) (fs.attemptEnv k)
        ((List.range' (k + 1) (cfg.retryCount - k)).map fs.attemptEnv)
        (by
          intro x hx
          obtain ⟨i, hi, rfl⟩ := List.mem_map.mp hx
          exact hfails i (List.mem_range.mp hi))
        hsucc
    rw [hd]
    simp [hcl, hsucc]
  · intro hall
    have hsplit : List.range (1 + cfg.retryCount) =
        List.range cfg.retryCount ++ [cfg.retryCount] := by
      rw [Nat.add_comm]
      simpa using List.range_succ cfg.retryCount
    have hcl : copyLoop cfg.verify fs.srcSize
        ((List.range (1 + cfg.retryCount)).map fs.attemptEnv) =
        (runAttempt cfg.verify fs.srcSize (fs.attemptEnv cfg.retryCount),
          ((List.range cfg.retryCount).map fs.attemptEnv).length + 1,
          ((List.range cfg.retryCount).map fs.attemptEnv).length) := by
      rw [hsplit, List.map_append, List.map_singleton]
      exact copyLoop_all_fail cfg.verify fs.srcSize
        ((List.range cfg.retryCount).map fs.attemptEnv)
        (fs.attemptEnv cfg.retryCount)
        (by
          intro x hx
          obtain ⟨i, hi, rfl⟩ := List.mem_map.mp hx
          exact hall i (by have := List.mem_range.mp hi; omega))
    have hlast : (runAttempt cfg.verify fs.srcSize
        (fs.attemptEnv cfg.retryCount)).success = false :=
      hall cfg.retryCount (by omega)
    rw [hd]
    simp [hcl, hlast]
    omega


/-- C3 witness: `retry_count = 2`, attempt 1 raises an `OSError`,
attempt 2 verifies successfully: the record succeeds after exactly one
delay wait and two attempts. -/
theorem claim_C3_retry_policy_witness :
    (doCopy ⟨true, 0, 0, 2, .rename, defaultRenamePattern⟩ "s.mp4" "a.mp4" "a" "mp4"
      ⟨true, 5, fun _ => false,
        fun i => if i = 0 then ⟨some "disk full", "", "", true, 5⟩
                 else ⟨none, "h", "h", true, 5⟩,
        ⟨"d", "t", "dt", 7⟩, 99⟩).1.success = true ∧
    (doCopy ⟨true, 0, 0, 2, .rename, defaultRenamePattern⟩ "s.mp4" "a.mp4" "a" "mp4"
      ⟨true, 5, fun _ => false,
        fun i => if i = 0 then ⟨some "disk full", "", "", true, 5⟩
                 else ⟨none, "h", "h", true, 5⟩,
        ⟨"d", "t", "dt", 7⟩, 99⟩).2.1 = 2 ∧
    (doCopy ⟨true, 0, 0, 2, .rename, defaultRenamePattern⟩ "s.mp4" "a.mp4" "a" "mp4"
      ⟨true, 5, fun _ => false,
        fun i => if i = 0 then ⟨some "disk full", "", "", true, 5⟩
                 else ⟨none, "h", "h", true, 5⟩,
        ⟨"d", "t", "dt", 7⟩, 99⟩).2.2 = 1 := by
  have h := claim_C3_retry_policy ⟨true, 0, 0, 2, .rename, defaultRenamePattern⟩
    "s.mp4" "a.mp4" "a" "mp4"
    ⟨true, 5, fun _ => false,
      fun i => if i = 0 then ⟨some "disk full", "", "", true, 5⟩
               else ⟨none, "h", "h", true, 5⟩,
      ⟨"d", "t", "dt", 7⟩, 99⟩ "a.mp4"
    rfl (by decide) (by decide)
  have hb := h.2.1 1 (by decide)
    (by
      intro i hi
      have hi0 : i = 0 := by omega
      subst hi0
      decide)
    (by decide)
  exact ⟨hb.1, hb.2.1, hb.2.2⟩


/-! ## Claims C5 and C7 -- skip-on-collision and vanished source -/

theorem record_total_skipped_of_skipped (s : CopyStats) (r : CopyRecord)
    (h : r.skipped = true) :
    (s.record r).total_skipped = s.total_skipped + 1 := by
  rw [(record_counters s r).1, h]
  simp

theorem record_total_failed_of_failed (s : CopyStats) (r : CopyRecord)
    (h1 : r.skipped = false) (h2 : r.success = false) :
    (s.record r).total_failed = s.total_failed + 1 := by
  rw [(record_counters s r).2.2.1, h1, h2]
  simp

theorem trimHistory_concat_getLast (h : List CopyRecord) (r : CopyRecord) :
    (trimHistory (h ++ [r])).getLast? = some r := by
  unfold trimHistory
  have hle : (h ++ [r]).length - 1000 ≤ h.length := by
    simp only [List.length_append, List.length_singleton]
    omega
  rw [List.drop_append_of_le_length hle]
  exact List.getLast?_concat _

/-- Record produced by `_do_copy` on the skip-collision path. -/
theorem doCopy_skip_record (cfg : CopyConfig)
    (srcName destName stem ext : String) (fs : FsView)
    (hmode : cfg.collisionMode = .skip)
    (hsrc : fs.sourceExists = true)
    (hgate : (passesSizeGate cfg.minSize cfg.maxSize fs.srcSize).1 = true)
    (hexists : fs.fsExists destName = true) :
    doCopy cfg srcName destName stem ext fs =
      ({ source := srcName, destination := destName, size_bytes := fs.srcSize,
         success := false, verified := false, skipped := true,
         error := "Skipped (collision, file already exists)" }, 0, 0) := by
  have hres : resolveCollision cfg.collisionMode cfg.renamePattern fs.clock
      fs.fsExists destName stem ext fs.fallbackTs = none := by
    simp [resolveCollision, hexists, hmode]
  unfold doCopy
  simp [hsrc, hgate, hres]

/-- C5: with `collision_mode = skip` and an existing destination, no
copy attempt is made (zero attempts, hence zero bytes written and zero
retries), and the record finalizes as skipped with the collision reason
and is counted in `total_skipped` when recorded. -/
theorem claim_C5_skip_collision (cfg : CopyConfig)
    (srcName destName stem ext : String) (fs : FsView)
    (hmode : cfg.collisionMode = .skip)
    (hsrc : fs.sourceExists = true)
    (hgate : (passesSizeGate cfg.minSize cfg.maxSize fs.srcSize).1 = true)
    (hexists : fs.fsExists destName = true) :
    (doCopy cfg srcName destName stem ext fs).1.skipped = true ∧
    (doCopy cfg srcName destName stem ext fs).1.success = false ∧
    (doCopy cfg srcName destName stem ext fs).1.destination = destName ∧
    (doCopy cfg srcName destName stem ext fs).1.error =
      "Skipped (collision, file already exists)" ∧
    (doCopy cfg srcName destName stem ext fs).2.1 = 0 ∧
    (doCopy cfg srcName destName stem ext fs).2.2 = 0 ∧
    (∀ s : CopyStats,
      (s.record (doCopy cfg srcName destName stem ext fs).1).total_skipped =
        s.total_skipped + 1) := by
  rw [doCopy_skip_record cfg srcName destName stem ext fs hmode hsrc hgate hexists]
  refine ⟨rfl, rfl, rfl, rfl, rfl, rfl, ?_⟩
  intro s
  exact record_total_skipped_of_skipped s _ rfl

/-- C5 witness: concrete skip-mode collision. -/
theorem claim_C5_skip_collision_witness :
    (doCopy ⟨true, 0, 0, 2, .skip, defaultRenamePattern⟩ "s/a.mp4" "a.mp4" "a" "mp4"
      ⟨true, 5, fun d => d = "a.mp4", fun _ => ⟨none, "h", "h", true, 5⟩,
        ⟨"d", "t", "dt", 7⟩, 99⟩).1.skipped = true ∧
    (doCopy ⟨true, 0, 0, 2, .skip, defaultRenamePattern⟩ "s/a.mp4" "a.mp4" "a" "mp4"
      ⟨true, 5, fun d => d = "a.mp4", fun _ => ⟨none, "h", "h", true, 5⟩,
        ⟨"d", "t", "dt", 7⟩, 99⟩).2.1 = 0 ∧
    (emptyStats.record (doCopy ⟨true, 0, 0, 2, .skip, defaultRenamePattern⟩
      "s/a.mp4" "a.mp4" "a" "mp4"
      ⟨true, 5, fun d => d = "a.mp4", fun _ => ⟨none, "h", "h", true, 5⟩,
        ⟨"d", "t", "dt", 7⟩, 99⟩).1).total_skipped = emptyStats.total_skipped + 1 := by
  have h := claim_C5_skip_collision ⟨true, 0, 0, 2, .skip, defaultRenamePattern⟩
    "s/a.mp4" "a.mp4" "a" "mp4"
    ⟨true, 5, fun d => d = "a.mp4", fun _ => ⟨none, "h", "h", true, 5⟩,
      ⟨"d", "t", "dt", 7⟩, 99⟩
    rfl rfl (by decide) (by decide)
  exact ⟨h.1, h.2.2.2.2.1, h.2.2.2.2.2.2 emptyStats⟩

/-- C7: if the source no longer exists when the copy work begins, the
record finalizes immediately as a non-skipped failure with a non-empty
"source no longer exists" error, no attempt is made and no retry
consumed, and the record is still counted in `total_failed` and appended
as the most recent history entry when recorded (the same record is what
the completion callback receives). -/
theorem claim_C7_source_vanished (cfg : CopyConfig)
    (srcName destName stem ext : String) (fs : FsView)
    (hsrc : fs.sourceExists = false) :
    (doCopy cfg srcName destName stem ext fs).1.success = false ∧
    (doCopy cfg srcName destName stem ext fs).1.skipped = false ∧
    (doCopy cfg srcName destName stem ext fs).1.error =
      "Source file no longer exists" ∧
    (doCopy cfg srcName destName stem ext fs).1.error ≠ "" ∧
    (doCopy cfg srcName destName stem ext fs).2.1 = 0 ∧
    (doCopy cfg srcName destName stem ext fs).2.2 = 0 ∧
    (∀ s : CopyStats,
      (s.record (doCopy cfg srcName destName stem ext fs).1).total_failed =
        s.total_failed + 1 ∧
      (s.record (doCopy cfg srcName destName stem ext fs).1).history.getLast? =
        some (doCopy cfg srcName destName stem ext fs).1) := by
  have hrec : doCopy cfg srcName destName stem ext fs =
      ({ source := srcName, destination := "", size_bytes := 0,
         success := false, verified := false, skipped := false,
         error := "Source file no longer exists" }, 0, 0) := by
    unfold doCopy
    simp [hsrc]
  rw [hrec]
  refine ⟨rfl, rfl, rfl, ?_, rfl, rfl, ?_⟩
  · simp
  intro s
  constructor
  · exact record_total_failed_of_failed s _ rfl rfl
  · rw [record_history]
    exact trimHistory_concat_getLast _ _

/-- C7 witness: concrete vanished source. -/
theorem claim_C7_source_vanished_witness :
    (doCopy ⟨true, 0, 0, 1, .rename, defaultRenamePattern⟩ "s/a.mp4" "a.mp4" "a" "mp4"
      ⟨false, 5, fun _ => false, fun _ => ⟨none, "h", "h", true, 5⟩,
        ⟨"d", "t", "dt", 7⟩, 99⟩).1.error = "Source file no longer exists" ∧
    (doCopy ⟨true, 0, 0, 1, .rename, defaultRenamePattern⟩ "s/a.mp4" "a.mp4" "a" "mp4"
      ⟨false, 5, fun _ => false, fun _ => ⟨none, "h", "h", true, 5⟩,
        ⟨"d", "t", "dt", 7⟩, 99⟩).2.1 = 0 ∧
    (emptyStats.record (doCopy ⟨true, 0, 0, 1, .rename, defaultRenamePattern⟩
      "s/a.mp4" "a.mp4" "a" "mp4"
      ⟨false, 5, fun _ => false, fun _ => ⟨none, "h", "h", true, 5⟩,
        ⟨"d", "t", "dt", 7⟩, 99⟩).1).total_failed = emptyStats.total_failed + 1 := by
  have h := claim_C7_source_vanished ⟨true, 0, 0, 1, .rename, defaultRenamePattern⟩
    "s/a.mp4" "a.mp4" "a" "mp4"
    ⟨false, 5, fun _ => false, fun _ => ⟨none, "h", "h", true, 5⟩,
      ⟨"d", "t", "dt", 7⟩, 99⟩ rfl
  exact ⟨h.2.2.1, h.2.2.2.2.1, (h.2.2.2.2.2.2 emptyStats).1⟩


/-! ## Claim C9 -- idempotence of copy_all_now with skip mode -/

/-- C9: `copy_all_now` is a pure function of the directory listing, so
two runs against an unchanged source tree queue the same count; and in
skip mode a file whose destination already exists finalizes as skipped
with zero copy attempts (hence zero bytes written) and zero delays, so
the second run writes nothing. -/
theorem claim_C9_copy_all_idempotent
    (cfg : CopyConfig) (srcName destName stem ext : String) (fs : FsView)
    (preserve srcIsDir : Bool) (top₁ all₁ top₂ all₂ : List (String × Bool))
    (htop : top₁ = top₂) (hall : all₁ = all₂)
    (hmode : cfg.collisionMode = .skip)
    (hsrc : fs.sourceExists = true)
    (hgate : (passesSizeGate cfg.minSize cfg.maxSize fs.srcSize).1 = true)
    (hexists : fs.fsExists destName = true) :
    copyAllNow preserve srcIsDir top₁ all₁ = copyAllNow preserve srcIsDir top₂ all₂ ∧
    (doCopy cfg srcName destName stem ext fs).1.skipped = true ∧
    (doCopy cfg srcName destName stem ext fs).2.1 = 0 ∧
    (doCopy cfg srcName destName stem ext fs).2.2 = 0 := by
  subst htop
  subst hall
  rw [doCopy_skip_record cfg srcName destName stem ext fs hmode hsrc hgate hexists]
  exact ⟨rfl, rfl, rfl, rfl⟩

/-- C9 witness: a two-file listing queues 2 both times, and a concrete
skip-mode second-run copy performs zero attempts. -/
theorem claim_C9_copy_all_idempotent_witness :
    copyAllNow false true [("a.mp4", true), ("b.mp4", true)] [] =
      copyAllNow false true [("a.mp4", true), ("b.mp4", true)] [] ∧
    copyAllNow false true [("a.mp4", true), ("b.mp4", true)] [] = 2 ∧
    (doCopy ⟨true, 0, 0, 2, .skip, defaultRenamePattern⟩ "s/a.mp4" "a.mp4" "a" "mp4"
      ⟨true, 5, fun d => d = "a.mp4", fun _ => ⟨none, "h", "h", true, 5⟩,
        ⟨"d", "t", "dt", 7⟩, 99⟩).1.skipped = true ∧
    (doCopy ⟨true, 0, 0, 2, .skip, defaultRenamePattern⟩ "s/a.mp4" "a.mp4" "a" "mp4"
      ⟨true, 5, fun d => d = "a.mp4", fun _ => ⟨none, "h", "h", true, 5⟩,
        ⟨"d", "t", "dt", 7⟩, 99⟩).2.1 = 0 := by
  have h := claim_C9_copy_all_idempotent ⟨true, 0, 0, 2, .skip, defaultRenamePattern⟩
    "s/a.mp4" "a.mp4" "a" "mp4"
    ⟨true, 5, fun d => d = "a.mp4", fun _ => ⟨none, "h", "h", true, 5⟩,
      ⟨"d", "t", "dt", 7⟩, 99⟩
    false true [("a.mp4", true), ("b.mp4", true)] []
    [("a.mp4", true), ("b.mp4", true)] [] rfl rfl
    rfl rfl (by decide) (by decide)
  exact ⟨h.1, by decide, h.2.1, h.2.2.1⟩


/-! ## Claim C4 -- rename-collision resolution -/

theorem decVal_decDigitsF : ∀ f n, n ≤ f → decVal (decDigitsF f n) = n := by
  intro f
  induction f with
  | zero =>
    intro n hn
    simp [decDigitsF, decVal]
    omega
  | succ f ih =>
    intro n hn
    by_cases h : n / 10 = 0
    · simp [decDigitsF, h, decVal]
      omega
    · simp [decDigitsF, h, decVal]
      rw [ih (n / 10) (by omega)]
      omega

theorem decVal_decDigits (n : Nat) : decVal (decDigits n) = n :=
  decVal_decDigitsF n n (Nat.le_refl n)

theorem decDigitsF_lt_ten : ∀ f n, ∀ d ∈ decDigitsF f n, d < 10 := by
  intro f
  induction f with
  | zero =>
    intro n d hd
    simp [decDigitsF] at hd
    omega
  | succ f ih =>
    intro n d hd
    by_cases h : n / 10 = 0
    · simp [decDigitsF, h] at hd
      omega
    · simp [decDigitsF, h] at hd
      rcases hd with hd | hd
      · omega
      · exact ih (n / 10) d hd

theorem digitChar_inj_fin :
    ∀ a b : Fin 10, Nat.digitChar a.val = Nat.digitChar b.val → a = b := by
  decide

theorem digitChar_inj_lt (a b : Nat) (ha : a < 10) (hb : b < 10)
    (h : Nat.digitChar a = Nat.digitChar b) : a = b := by
  have := digitChar_inj_fin ⟨a, ha⟩ ⟨b, hb⟩ h
  exact congrArg Fin.val this

theorem map_digitChar_inj :
    ∀ xs ys : List Nat, (∀ x ∈ xs, x < 10) → (∀ y ∈ ys, y < 10) →
      xs.map Nat.digitChar = ys.map Nat.digitChar → xs = ys := by
  intro xs
  induction xs with
  | nil =>
    intro ys _ _ h
    cases ys with
    | nil => rfl
    | cons y ys => simp at h
  | cons x xs ih =>
    intro ys hx hy h
    cases ys with
    | nil => simp at h
    | cons y ys =>
      simp only [List.map_cons, List.cons.injEq] at h
      have hxy : x = y :=
        digitChar_inj_lt x y (hx x (by simp)) (hy y (by simp)) h.1
      rw [hxy, ih ys (fun a ha => hx a (by simp [ha])) (fun a ha => hy a (by simp [ha])) h.2]

theorem natToDec_inj (m n : Nat) (h : natToDec m = natToDec n) : m = n := by
  have hd : ((decDigits m).map Nat.digitChar).reverse =
      ((decDigits n).map Nat.digitChar).reverse := congrArg String.data h
  have hmap := List.reverse_injective hd
  have hdig := map_digitChar_inj (decDigits m) (decDigits n)
    (decDigitsF_lt_ten m m) (decDigitsF_lt_ten n n) hmap
  have := congrArg decVal hdig
  rwa [decVal_decDigits, decVal_decDigits] at this


theorem defaultPattern_data : defaultRenamePattern.data =
    [braceOpen, 'n', 'a', 'm', 'e', braceClose, '_',
     braceOpen, 'n', braceClose, '.',
     braceOpen, 'e', 'x', 't', braceClose] := by
  decide

theorem expand_default (stem ext : String) (n : Nat) (clock : RenameClock) :
    expandRenamePattern defaultRenamePattern stem ext n clock =
      stem ++ "_" ++ natToDec n ++ "." ++ ext := by
  apply stringExtOfData
  show (expandTokensAux (renameTokenValue stem ext n clock) none
      defaultRenamePattern.data) = _
  rw [defaultPattern_data]
  simp +decide [expandTokensAux, renameTokenValue, stringDataAppend]


theorem find?_range'_first (p : Nat → Bool) :
    ∀ len s n, (List.range' s len).find? p = some n →
      p n = true ∧ s ≤ n ∧ n < s + len ∧
        ∀ m, s ≤ m → m < n → p m = false := by
  intro len
  induction len with
  | zero => intro s n h; simp at h
  | succ len ih =>
    intro s n h
    rw [List.range'_succ s len 1] at h
    by_cases hp : p s
    · rw [List.find?_cons_of_pos _ hp] at h
      have hn : s = n := Option.some.inj h
      subst hn
      exact ⟨hp, Nat.le_refl s, by omega, fun m h1 h2 => absurd (Nat.lt_of_le_of_lt h1 h2) (Nat.lt_irrefl s)⟩
    · rw [List.find?_cons_of_neg _ hp] at h
      obtain ⟨h1, h2, h3, h4⟩ := ih (s + 1) n h
      refine ⟨h1, by omega, by omega, ?_⟩
      intro m hm1 hm2
      by_cases hms : m = s
      · subst hms
        exact Bool.not_eq_true _ ▸ (by simpa using hp)
      · exact h4 m (by omega) hm2


/-- C4: with rename mode and an occupied destination, the engine tries
counters `n = 1, 2, …` up to the 10,000 bound (i.e. `n ≤ 9999`) and
returns the expansion of the first counter whose candidate name does not
exist; when every counter is taken it falls back to appending the
current epoch timestamp to the stem; with the default pattern
`\x7bname\x7d_\x7bn\x7d.\x7bext\x7d` the expansion is
`stem_n.ext`, and distinct counters give strictly distinct names, so at
least 9999 collisions are resolved before the fallback. -/
theorem claim_C4_rename_expansion (pattern : String) (clock : RenameClock)
    (fsExists : String → Bool) (destName stem ext : String) (fallbackTs : Nat)
    (hex : fsExists destName = true) :
    ((∃ n, 1 ≤ n ∧ n ≤ 9999 ∧
        fsExists (expandRenamePattern pattern stem ext n clock) = false) →
      ∃ n₀, 1 ≤ n₀ ∧ n₀ ≤ 9999 ∧
        fsExists (expandRenamePattern pattern stem ext n₀ clock) = false ∧
        resolveCollision .rename pattern clock fsExists destName stem ext fallbackTs =
          some (expandRenamePattern pattern stem ext n₀ clock) ∧
        ∀ m, 1 ≤ m → m < n₀ →
          fsExists (expandRenamePattern pattern stem ext m clock) = true) ∧
    ((∀ n, 1 ≤ n → n ≤ 9999 →
        fsExists (expandRenamePattern pattern stem ext n clock) = true) →
      resolveCollision .rename pattern clock fsExists destName stem ext fallbackTs =
        some (stem ++ "_" ++ natToDec fallbackTs ++ "." ++ ext)) ∧
    (∀ n, expandRenamePattern defaultRenamePattern stem ext n clock =
      stem ++ "_" ++ natToDec n ++ "." ++ ext) ∧
    (∀ i j, expandRenamePattern defaultRenamePattern stem ext i clock =
        expandRenamePattern defaultRenamePattern stem ext j clock → i = j) := by
  refine ⟨?_, ?_, fun n => expand_default stem ext n clock, ?_⟩
  · rintro ⟨n, hn1, hn2, hnf⟩
    cases hf : (List.range' 1 9999).find?
        (fun k => !fsExists (expandRenamePattern pattern stem ext k clock)) with
    | none =>
      exfalso
      have hall := List.find?_eq_none.mp hf n
        (List.mem_range'_1.mpr ⟨hn1, by omega⟩)
      simp [hnf] at hall
    | some n₀ =>
      obtain ⟨hp, h1, h2, h3⟩ := find?_range'_first _ 9999 1 n₀ hf
      refine ⟨n₀, h1, by omega, by simpa using hp, ?_, ?_⟩
      · simp [resolveCollision, hex, hf]
      · intro m hm1 hm2
        have hm := h3 m hm1 hm2
        simpa using hm
  · intro hall
    have hf : (List.range' 1 9999).find?
        (fun k => !fsExists (expandRenamePattern pattern stem ext k clock)) = none := by
      apply List.find?_eq_none.mpr
      intro x hx
      have hx' := List.mem_range'_1.mp hx
      simp [hall x hx'.1 (by omega)]
    simp [resolveCollision, hex, hf]
  · intro i j hij
    rw [expand_default, expand_default] at hij
    have hd := congrArg String.data hij
    simp only [stringDataAppend, List.append_assoc] at hd
    have hd2 := List.append_cancel_left hd
    have hd3 := List.append_cancel_left hd2
    have hd4 : (natToDec i).data = (natToDec j).data := by
      rw [← List.append_assoc, ← List.append_assoc] at hd3
      exact List.append_cancel_right (List.append_cancel_right hd3)
    exact natToDec_inj i j (stringExtOfData hd4)


/-- C4 witness: with every candidate name occupied the resolver falls
back to the timestamp suffix; the default pattern expands counter 5 to
`stem_5.ext`; and counters 1 and 2 give distinct names. -/
theorem claim_C4_rename_expansion_witness :
    resolveCollision .rename defaultRenamePattern ⟨"d", "t", "dt", 7⟩
      (fun _ => true) "a.mp4" "a" "mp4" 99 =
      some ("a" ++ "_" ++ natToDec 99 ++ "." ++ "mp4") ∧
    expandRenamePattern defaultRenamePattern "a" "mp4" 5 ⟨"d", "t", "dt", 7⟩ =
      "a" ++ "_" ++ natToDec 5 ++ "." ++ "mp4" ∧
    (expandRenamePattern defaultRenamePattern "a" "mp4" 1 ⟨"d", "t", "dt", 7⟩ =
        expandRenamePattern defaultRenamePattern "a" "mp4" 2 ⟨"d", "t", "dt", 7⟩ →
      (1 : Nat) = 2) := by
  have h := claim_C4_rename_expansion defaultRenamePattern ⟨"d", "t", "dt", 7⟩
    (fun _ => true) "a.mp4" "a" "mp4" 99 rfl
  exact ⟨h.2.1 (fun n _ _ => rfl), h.2.2.1 5, h.2.2.2 1 2⟩

end StreamWatcher
